import Mathlib

/-!
Verification development for the AI Video Summarizer repository.

The repository ships a React frontend (under src/frontend) together with the
design specification of its backend core: a pipeline orchestrator state
machine, a similarity indexer, a retrieval chat engine and a short-video
assembler.  The backend Python sources are not part of the checked-in tree,
so the backend components are modelled here faithfully from the
specification text; the frontend components are embedded directly from the
JSX sources.
-/

namespace VideoSummarizer

/-! ### Transcript segments (spec section 3, data model) -/

/-- Modelled from the spec: a TranscriptSegment `(video_id, start_time,
end_time, text)` (the optional embedding is carried by the index, below).
Times are in whole seconds. -/
structure Segment where
  videoId : Nat
  startTime : Nat
  endTime : Nat
  text : String
deriving DecidableEq, Repr

/-! ### Retrieval chat engine (spec section 4.3) -/

/-- Modelled from the spec: the chat response `mode` field, either
`generative` or `extractive`. -/
inductive ChatMode where
  | generative
  | extractive
deriving DecidableEq, Repr

/-- Modelled from the spec: one element of the `sources` list of a chat
response, carrying a timestamp and a text. -/
structure Source where
  timestamp : Nat
  text : String
deriving DecidableEq, Repr

/-- Modelled from the spec: the response shape
`\x7banswer: text, sources: [\x7btimestamp, text\x7d], mode: generative|extractive\x7d`
shared by the generative and the extractive path. -/
structure ChatResponse where
  answer : String
  sources : List Source
  mode : ChatMode
deriving DecidableEq, Repr

/-- Modelled from the spec: the typed error raised when no segments are
indexed for the video (`IndexEmpty`). -/
inductive ChatError where
  | IndexEmpty
deriving DecidableEq, Repr

/-- Modelled from the spec: step (1) of the chat engine, retrieval of the
top-k most relevant segments of the video from the index.  Ranking is
irrelevant to the claims below, so the first k indexed segments of the
video stand for the k nearest ones. -/
def retrieve (index : List Segment) (vid k : Nat) : List Segment :=
  (index.filter fun s => s.videoId == vid).take k

/-- Modelled from the spec: the source list returned with an answer, the
timestamps and texts of the retrieved segments. -/
def sourcesOf (segs : List Segment) : List Source :=
  segs.map fun s => ⟨s.startTime, s.text⟩

/-- Modelled from the spec: the grounded prompt containing the retrieved
segment texts and timestamps. -/
def groundedPrompt (question : String) (segs : List Segment) : String :=
  question ++ String.join (segs.map fun s => s.text)

/-- Modelled from the spec: the extractive-mode answer, the
highest-similarity segment texts concatenated verbatim (the k-segment cap
of the retrieval step realises the length budget). -/
def extractiveAnswer (segs : List Segment) : String :=
  String.join (segs.map fun s => s.text)

/-- Modelled from the spec: the chat engine.  The optional generative
backend is the single capability `complete : prompt → Option text`
(`none` models timeout or error); an absent backend is `none`.  A backend
failure, including an empty response, silently degrades to extractive
mode; zero indexed segments give `IndexEmpty`. -/
def chat (backend : Option (String → Option String)) (k : Nat)
    (index : List Segment) (vid : Nat) (question : String) :
    Except ChatError ChatResponse :=
  let segs := retrieve index vid k
  if segs.isEmpty then
    .error .IndexEmpty
  else
    match backend with
    | none => .ok ⟨extractiveAnswer segs, sourcesOf segs, .extractive⟩
    | some complete =>
      match complete (groundedPrompt question segs) with
      | none => .ok ⟨extractiveAnswer segs, sourcesOf segs, .extractive⟩
      | some ans =>
        if ans = "" then .ok ⟨extractiveAnswer segs, sourcesOf segs, .extractive⟩
        else .ok ⟨ans, sourcesOf segs, .generative⟩

/-! ### Pipeline orchestrator state machine (spec section 4.1) -/

/-- Video lifecycle status; the six values also appear verbatim in
statusColors and statusLabels of src/frontend/src/components/ProgressTracker.jsx. -/
inductive Status where
  | pending
  | processing
  | transcribing
  | summarizing
  | completed
  | failed
deriving DecidableEq, Repr

/-- Modelled from the spec: the events driving the orchestrator.
Transitions are driven by explicit stage-completion events; a stage that
exhausts its retries (or a cancellation) escalates to failure; a user may
explicitly request a fresh transcript of a completed video. -/
inductive Event where
  | stageDone
  | stageFailed
  | regenerateTranscript
deriving DecidableEq, Repr

/-- Modelled from the spec: `completed` and `failed` are the terminal
states; every other state is non-terminal. -/
def nonTerminal : Status → Bool
  | .completed => false
  | .failed => false
  | _ => true

/-- Modelled from the spec: the orchestrator's reaction to one event,
`none` when the event is rejected in the current state.  Stage-completion
events advance `pending → processing → transcribing → summarizing →
completed`; failure escalation is accepted in any non-terminal state; the
deliberate re-entry edge accepts a fresh-transcript request only in
`completed`. -/
def orchStep : Status → Event → Option Status
  | .pending, .stageDone => some .processing
  | .processing, .stageDone => some .transcribing
  | .transcribing, .stageDone => some .summarizing
  | .summarizing, .stageDone => some .completed
  | s, .stageFailed => if nonTerminal s then some .failed else none
  | .completed, .regenerateTranscript => some .transcribing
  | _, _ => none

/-- Modelled from the spec: the declarative edge set of the state machine
of section 4.1 — the forward chain, `failed` from any non-terminal state,
and the re-entry edge `completed → transcribing`.  This is the
specification-side relation the operational `orchStep` is checked
against. -/
def validEdge : Status → Status → Bool
  | .pending, .processing => true
  | .processing, .transcribing => true
  | .transcribing, .summarizing => true
  | .summarizing, .completed => true
  | .completed, .transcribing => true
  | s, .failed => nonTerminal s
  | _, _ => false

/-- Modelled from the spec: the sequence of statuses observed while the
orchestrator consumes a list of events from a starting status; rejected
events change nothing and are not observed. -/
def orchRun (s : Status) : List Event → List Status
  | [] => []
  | e :: es =>
    match orchStep s e with
    | some s2 => s2 :: orchRun s2 es
    | none => orchRun s es

/-! ### Orchestrator submit and the per-video lock (spec sections 4.1, 5) -/

/-- Modelled from the spec: the orchestrator's mutual-exclusion state, the
set of video ids whose pipeline is currently in flight (the per-video lock
of section 5). -/
structure OrchState where
  running : List Nat
deriving DecidableEq, Repr

/-- Modelled from the spec: the outcome of `submit(video_id)`, success or
the synchronous `AlreadyRunning` state conflict. -/
inductive SubmitResult where
  | ok
  | alreadyRunning
deriving DecidableEq, Repr

/-- Modelled from the spec: `submit(video_id)` begins the pipeline if not
already running for that id, and fails with `AlreadyRunning` if a pipeline
for that id is in flight.  The check and the lock acquisition are one
atomic step under the per-video lock. -/
def submit (vid : Nat) (st : OrchState) : SubmitResult × OrchState :=
  if vid ∈ st.running then (.alreadyRunning, st)
  else (.ok, ⟨vid :: st.running⟩)

/-- Modelled from the spec: n concurrent `submit(video_id)` calls for the
same id.  Under the per-video lock the calls serialise, so an arbitrary
interleaving is a sequence; the list collects the n results in that
serialisation order. -/
def submitMany (vid : Nat) : Nat → OrchState → List SubmitResult
  | 0, _ => []
  | n + 1, st =>
    let r := submit vid st
    r.1 :: submitMany vid n r.2

/-! ### Similarity indexer (spec section 4.2) -/

/-- Modelled from the spec: one entry of the vector index, a segment
identified by `(video_id, start_time)` (the persisted key of section 6)
together with its text and the embedding vector derived from that text. -/
structure IndexEntry where
  videoId : Nat
  segStart : Nat
  text : String
  vec : List Int
deriving DecidableEq, Repr

/-- Modelled from the spec: the typed errors of `query` on an index with
no vectors for the video. -/
inductive IndexError where
  | IndexEmpty
deriving DecidableEq, Repr

/-- Modelled from the spec: the index entry obtained by embedding one
segment with the embedding service `emb` (an injected capability,
deterministic for identical input). -/
def entryOf (emb : String → List Int) (s : Segment) : IndexEntry :=
  ⟨s.videoId, s.startTime, s.text, emb s.text⟩

/-- Modelled from the spec: `invalidate(video_id)` drops all vectors for a
video. -/
def invalidate (vid : Nat) (st : List IndexEntry) : List IndexEntry :=
  st.filter fun e => ¬ e.videoId = vid

/-- Modelled from the spec: insertion of one embedded segment; the stale
vector of the same segment id is removed first, so the index never holds
duplicate entries for one segment id. -/
def upsertOne (emb : String → List Int) (s : Segment) (st : List IndexEntry) :
    List IndexEntry :=
  entryOf emb s :: st.filter fun e => ¬ (e.videoId = s.videoId ∧ e.segStart = s.startTime)

/-- Modelled from the spec: `upsert(segments)` embeds and inserts/updates
the vectors of a list of segments. -/
def upsert (emb : String → List Int) (segs : List Segment) (st : List IndexEntry) :
    List IndexEntry :=
  segs.foldl (fun acc s => upsertOne emb s acc) st

/-- Modelled from the spec: inner-product similarity of two vectors. -/
def dot (a b : List Int) : Int :=
  (List.zipWith (fun x y => x * y) a b).sum

/-- Modelled from the spec: `query(text, k)` embeds the query text,
returns the k nearest entries of the video ordered by descending
similarity, and fails with `IndexEmpty` if no vectors are indexed for the
video. -/
def queryIdx (emb : String → List Int) (q : String) (vid k : Nat)
    (st : List IndexEntry) : Except IndexError (List IndexEntry) :=
  let hits := st.filter fun e => e.videoId = vid
  if hits.isEmpty then .error .IndexEmpty
  else .ok ((hits.insertionSort fun e1 e2 => dot (emb q) e2.vec ≤ dot (emb q) e1.vec).take k)

/-! ### Summary store (spec sections 3, 6) -/

/-- Summary kinds; the three values also drive the generate/display tabs
of src/frontend/src/pages/VideoDetailPage.jsx. -/
inductive SumKind where
  | full
  | bullet
  | short
deriving DecidableEq, Repr

/-- Modelled from the spec: a Summary row
`(video_id, kind, content, generation_time)`. -/
structure SummaryRow where
  videoId : Nat
  kind : SumKind
  content : String
  genTime : Nat
deriving DecidableEq, Repr

/-- Modelled from the spec: saving a generated summary with
replace-on-regenerate semantics — the row for `(video_id, kind)` replaces
any existing row for that key rather than being appended. -/
def saveSummary (vid : Nat) (kind : SumKind) (content : String) (t : Nat)
    (st : List SummaryRow) : List SummaryRow :=
  ⟨vid, kind, content, t⟩ :: st.filter fun r => ¬ (r.videoId = vid ∧ r.kind = kind)

/-- Modelled from the spec: the rows a store holds for one
`(video_id, kind)` key. -/
def rowsFor (vid : Nat) (kind : SumKind) (st : List SummaryRow) : List SummaryRow :=
  st.filter fun r => r.videoId = vid ∧ r.kind = kind

/-- Modelled from the spec: the invariant of section 3 — one current
summary per kind per video. -/
def AtMostOnePerKind (st : List SummaryRow) : Prop :=
  ∀ vid kind, (rowsFor vid kind st).length ≤ 1

/-! ### Highlight scoring output and the short assembler (spec sections 4.4, 4.5) -/

/-- Modelled from the spec: a transcript segment as scored by the
highlight scorer — a time range plus a salience score (a rational, the
scorer's normalized range). -/
structure Scored where
  startTime : Nat
  endTime : Nat
  score : ℚ
deriving DecidableEq, Repr

/-- Modelled from the spec: the duration of a scored segment. -/
def durS (s : Scored) : Nat := s.endTime - s.startTime

/-- Modelled from the spec: the selection order of section 4.5 —
descending score, ties broken by earlier start time first. -/
def selRel (a b : Scored) : Prop :=
  b.score < a.score ∨ (a.score = b.score ∧ a.startTime ≤ b.startTime)

instance : DecidableRel selRel := fun a b => by
  unfold selRel; infer_instance

instance : IsTotal Scored selRel := by
  constructor
  intro a b
  rcases lt_trichotomy a.score b.score with h | h | h
  · exact Or.inr (Or.inl h)
  · rcases Nat.le_total a.startTime b.startTime with h2 | h2
    · exact Or.inl (Or.inr ⟨h, h2⟩)
    · exact Or.inr (Or.inr ⟨h.symm, h2⟩)
  · exact Or.inl (Or.inl h)

instance : IsTrans Scored selRel := by
  constructor
  intro a b c hab hbc
  rcases hab with h1 | ⟨h1, h1s⟩ <;> rcases hbc with h2 | ⟨h2, h2s⟩
  · exact Or.inl (h2.trans h1)
  · exact Or.inl (h2 ▸ h1)
  · exact Or.inl (h1 ▸ h2)
  · exact Or.inr ⟨h1.trans h2, h1s.trans h2s⟩

/-- Modelled from the spec: scored segments in selection order (stable
sort by descending score, ties by earlier start time). -/
def selOrder (segs : List Scored) : List Scored :=
  segs.insertionSort selRel

/-- Modelled from the spec: the greedy pass of section 4.5 — walk the
selection order, skipping any segment whose inclusion would exceed the
target duration; `used` is the duration already committed. -/
def greedySelect (target : Nat) : List Scored → Nat → List Scored
  | [], _ => []
  | s :: rest, used =>
    if used + durS s ≤ target then s :: greedySelect target rest (used + durS s)
    else greedySelect target rest used

/-- Modelled from the spec: selected segments re-sorted by start time
ascending (chronological assembly order). -/
def chronOrder (segs : List Scored) : List Scored :=
  segs.insertionSort fun a b => a.startTime ≤ b.startTime

/-- Modelled from the spec: merging of adjacent or overlapping time
ranges, on a chronologically sorted list; the head range absorbs the next
range while they touch. -/
def mergeInto : Nat × Nat → List (Nat × Nat) → List (Nat × Nat)
  | r, [] => [r]
  | (a, b), (c, d) :: rest =>
    if c ≤ b then mergeInto (a, max b d) rest
    else (a, b) :: mergeInto (c, d) rest

/-- Modelled from the spec: range merging over a whole plan. -/
def mergeRanges : List (Nat × Nat) → List (Nat × Nat)
  | [] => []
  | r :: rest => mergeInto r rest

/-- Modelled from the spec: the short assembler — greedy selection in
selection order, re-sort by start time, merge touching ranges, emit the
plan's ordered time ranges. -/
def assemble (segs : List Scored) (target : Nat) : List (Nat × Nat) :=
  mergeRanges ((chronOrder (greedySelect target (selOrder segs) 0)).map
    fun s => (s.startTime, s.endTime))

/-- Modelled from the spec: total duration of a plan's time ranges. -/
def sumDur (rs : List (Nat × Nat)) : Nat :=
  (rs.map fun r => r.2 - r.1).sum

/-- Modelled from the spec: total duration of a list of scored segments. -/
def totalDur (segs : List Scored) : Nat :=
  (segs.map durS).sum

/-- Modelled from the spec: the length of the longest single input
segment. -/
def maxSegLen (segs : List Scored) : Nat :=
  (segs.map durS).foldr max 0

/-! ### Upload component (src/frontend/src/components/UploadVideo.jsx) -/

/-- A file offered to the upload component: its name and its MIME type
(file.type in the JSX source). -/
structure FileDesc where
  name : String
  mime : String
deriving DecidableEq, Repr

/-- The allowedTypes list of handleFileSelect (UploadVideo.jsx line 32). -/
def allowedTypes : List String :=
  ["video/mp4", "video/quicktime", "video/x-msvideo", "video/x-matroska", "video/webm"]

/-- The component state handleFileSelect and removeFile touch:
selectedFile and error (UploadVideo.jsx lines 8, 11). -/
structure UploadState where
  selectedFile : Option FileDesc
  error : Option String
deriving DecidableEq, Repr

/-- The initial component state: no file selected, no error
(useState(null) in UploadVideo.jsx lines 8, 11). -/
def initUploadState : UploadState := ⟨none, none⟩

/-- The error message set for a rejected file (UploadVideo.jsx line 34). -/
def invalidTypeMsg : String :=
  "Invalid file type. Please upload a video file (MP4, MOV, AVI, MKV, WebM)"

/-- handleFileSelect (UploadVideo.jsx lines 31-39): a file whose MIME type
is not in allowedTypes sets the error and returns with the selection
unchanged; an allowed file becomes the selection and clears the error. -/
def handleFileSelect (f : FileDesc) (st : UploadState) : UploadState :=
  if f.mime ∈ allowedTypes then { st with selectedFile := some f, error := none }
  else { st with error := some invalidTypeMsg }

/-- removeFile (UploadVideo.jsx lines 75-81): clears the selection and the
error. -/
def removeFile (_st : UploadState) : UploadState := ⟨none, none⟩

/-- handleUpload (UploadVideo.jsx lines 41-47): issues an upload request
for the selected file, or none when no file is selected (the early
return). -/
def uploadRequestOf (st : UploadState) : Option FileDesc :=
  st.selectedFile

/-- The user interactions that mutate the selection state. -/
inductive UploadAction where
  | selectFile (f : FileDesc)
  | clearFile
deriving DecidableEq, Repr

/-- One interaction step of the upload component. -/
def uploadStep (st : UploadState) : UploadAction → UploadState
  | .selectFile f => handleFileSelect f st
  | .clearFile => removeFile st

/-- The component state after a sequence of interactions from the initial
state. -/
def runUpload (acts : List UploadAction) : UploadState :=
  acts.foldl uploadStep initUploadState

/-! ### SummaryCard content handling (src/frontend/src/components/SummaryCard.jsx) -/

/-- A JavaScript value as delivered by axios and handled by SummaryCard;
numbers are embedded as integers (only their truthiness matters here). -/
inductive JSValue where
  | undefined
  | null
  | bool (b : Bool)
  | num (n : Int)
  | str (s : String)
  | arr (xs : List JSValue)
  | obj (fields : List (String × JSValue))

/-- JavaScript truthiness: undefined, null, false, 0 and the empty string
are falsy; every object and array is truthy. -/
def truthy : JSValue → Bool
  | .undefined => false
  | .null => false
  | .bool b => b
  | .num n => ¬ n = 0
  | .str s => ¬ s = ""
  | .arr _ => true
  | .obj _ => true

/-- JavaScript property access v.k as used on parsedContent: a field
lookup on an object, undefined on a missing field or a non-object. -/
def getField (v : JSValue) (k : String) : JSValue :=
  match v with
  | .obj fs =>
    match fs.find? fun kv => kv.1 = k with
    | some kv => kv.2
    | none => .undefined
  | _ => .undefined

/-- The JavaScript or-else operator a || b: a when truthy, else b. -/
def jsOr (a b : JSValue) : JSValue :=
  if truthy a then a else b

/-- Whether a JavaScript value is a string. -/
def isString : JSValue → Bool
  | .str _ => true
  | _ => false

/-- Whether a JavaScript value is an array. -/
def isArray : JSValue → Bool
  | .arr _ => true
  | _ => false

/-- The fallback object {content: raw, title: empty, key_topics: []} built
by the catch branch of the parse effect (SummaryCard.jsx line 21). -/
def fallbackWrap (raw : JSValue) : JSValue :=
  .obj [("content", raw), ("title", .str ""), ("key_topics", .arr [])]

/-- The useEffect of SummaryCard.jsx lines 12-23: string content is
JSON-parsed (parse none models a JSON.parse throw), falling back to the
wrapping object; non-string content becomes parsedContent directly. -/
def parsedContentOf (parse : String → Option JSValue) (content : JSValue) : JSValue :=
  match content with
  | .str s =>
    match parse s with
    | some v => v
    | none => fallbackWrap (.str s)
  | v => v

/-- getContentText (SummaryCard.jsx lines 44-47): the empty string on a
falsy parsedContent, else parsedContent.content || parsedContent.summary_text
|| the empty string. -/
def getContentText (pc : JSValue) : JSValue :=
  if truthy pc then jsOr (getField pc "content") (jsOr (getField pc "summary_text") (.str ""))
  else .str ""

/-- getKeyTopics (SummaryCard.jsx lines 49-52): the empty list on a falsy
parsedContent, else parsedContent.key_topics || []. -/
def getKeyTopics (pc : JSValue) : JSValue :=
  if truthy pc then jsOr (getField pc "key_topics") (.arr [])
  else .arr []

/-! ### Theorems -/

theorem orchStep_validEdge (s : Status) (e : Event) (s2 : Status)
    (h : orchStep s e = some s2) : validEdge s s2 = true := by
  cases s <;> cases e <;> simp [orchStep, nonTerminal] at h <;> subst h <;> rfl

/-- C3: every status sequence the orchestrator can produce is a valid path
of the section 4.1 state machine: consecutive observed statuses follow the
edges pending→processing→transcribing→summarizing→completed, failed from
any non-terminal state, and the deliberate re-entry edge
completed→transcribing; in particular failed is never entered from
completed. -/
theorem status_transitions_follow_state_machine (s : Status) (es : List Event) :
    List.Chain (fun a b => validEdge a b = true) s (orchRun s es) ∧
    (∀ e, orchStep Status.completed e ≠ some Status.failed) := by
  constructor
  · induction es generalizing s with
    | nil => exact List.Chain.nil
    | cons e es ih =>
      show List.Chain _ s (orchRun s (e :: es))
      unfold orchRun
      cases h : orchStep s e with
      | none => exact ih s
      | some s2 => exact List.Chain.cons (orchStep_validEdge s e s2 h) (ih s2)
  · intro e
    cases e <;> simp [orchStep, nonTerminal]

theorem submitMany_running (vid : Nat) (n : Nat) (st : OrchState)
    (h : vid ∈ st.running) :
    submitMany vid n st = List.replicate n SubmitResult.alreadyRunning := by
  induction n generalizing st with
  | zero => rfl
  | succ n ih =>
    unfold submitMany
    simp [submit, h, ih st h, List.replicate_succ]

/-- C4: at most one pipeline instance is active per video id — among n + 1
concurrent submit calls for the same id (which serialise under the
per-video lock, so an arbitrary interleaving is a sequence), exactly the
first one succeeds and every other call fails synchronously with
AlreadyRunning. -/
theorem submit_at_most_one_pipeline (vid : Nat) (st : OrchState) (n : Nat)
    (h : vid ∉ st.running) :
    submitMany vid (n + 1) st =
      SubmitResult.ok :: List.replicate n SubmitResult.alreadyRunning := by
  unfold submitMany
  simp only [submit, if_neg h]
  exact congrArg _ (submitMany_running vid n ⟨vid :: st.running⟩ (List.mem_cons_self _ _))

/-- Witness for C4: three concurrent submit calls for video 5 on an idle
orchestrator yield one success and two AlreadyRunning failures. -/
theorem submit_at_most_one_pipeline_witness :
    5 ∉ (OrchState.mk []).running ∧
    submitMany 5 3 ⟨[]⟩ =
      [SubmitResult.ok, SubmitResult.alreadyRunning, SubmitResult.alreadyRunning] :=
  ⟨by decide, submit_at_most_one_pipeline 5 ⟨[]⟩ 2 (by decide)⟩

theorem uploadStep_allowed (st : UploadState) (a : UploadAction)
    (h : ∀ g, st.selectedFile = some g → g.mime ∈ allowedTypes) :
    ∀ g, (uploadStep st a).selectedFile = some g → g.mime ∈ allowedTypes := by
  intro g hg
  cases a with
  | clearFile => simp [uploadStep, removeFile] at hg
  | selectFile f =>
    by_cases hf : f.mime ∈ allowedTypes
    · simp [uploadStep, handleFileSelect, hf] at hg
      exact hg ▸ hf
    · simp [uploadStep, handleFileSelect, hf] at hg
      exact h g hg

theorem runUpload_foldl_allowed (acts : List UploadAction) (st : UploadState)
    (h : ∀ g, st.selectedFile = some g → g.mime ∈ allowedTypes) :
    ∀ g, (acts.foldl uploadStep st).selectedFile = some g → g.mime ∈ allowedTypes := by
  induction acts generalizing st with
  | nil => exact h
  | cons a rest ih => exact ih (uploadStep st a) (uploadStep_allowed st a h)

/-- C9: handleFileSelect rejects any file whose MIME type is not in
allowedTypes — the error message is set and the selection is unchanged —
and accepts any allowed file, selecting it and clearing any prior error;
consequently every upload request ever issued from a reachable component
state carries a file of an allowed type, so no request is issued for a
rejected file. -/
theorem upload_rejects_invalid_type (f : FileDesc) (st : UploadState) :
    (f.mime ∉ allowedTypes →
      (handleFileSelect f st).selectedFile = st.selectedFile ∧
      (handleFileSelect f st).error = some invalidTypeMsg) ∧
    (f.mime ∈ allowedTypes →
      (handleFileSelect f st).selectedFile = some f ∧
      (handleFileSelect f st).error = none) ∧
    (∀ acts g, uploadRequestOf (runUpload acts) = some g → g.mime ∈ allowedTypes) := by
  refine ⟨fun hf => ?_, fun hf => ?_, fun acts g hg => ?_⟩
  · simp [handleFileSelect, hf]
  · simp [handleFileSelect, hf]
  · exact runUpload_foldl_allowed acts initUploadState (by simp [initUploadState]) g hg

/-- Witness for C9: a text/plain file is rejected with the error message
and leaves the empty selection empty, an mp4 file is accepted, and a
session that selects only the text/plain file issues no upload request for
it. -/
theorem upload_rejects_invalid_type_witness :
    ("text/plain" ∉ allowedTypes ∧
      (handleFileSelect ⟨"a.txt", "text/plain"⟩ initUploadState).selectedFile = none ∧
      (handleFileSelect ⟨"a.txt", "text/plain"⟩ initUploadState).error = some invalidTypeMsg) ∧
    ("video/mp4" ∈ allowedTypes ∧
      (handleFileSelect ⟨"b.mp4", "video/mp4"⟩ initUploadState).selectedFile =
        some ⟨"b.mp4", "video/mp4"⟩) ∧
    (uploadRequestOf (runUpload [.selectFile ⟨"a.txt", "text/plain"⟩]) =
        some ⟨"a.txt", "text/plain"⟩ → "text/plain" ∈ allowedTypes) :=
  ⟨⟨by decide,
    ((upload_rejects_invalid_type ⟨"a.txt", "text/plain"⟩ initUploadState).1 (by decide)).1,
    ((upload_rejects_invalid_type ⟨"a.txt", "text/plain"⟩ initUploadState).1 (by decide)).2⟩,
   ⟨by decide,
    ((upload_rejects_invalid_type ⟨"b.mp4", "video/mp4"⟩ initUploadState).2.1 (by decide)).1⟩,
   fun hg => (upload_rejects_invalid_type ⟨"a.txt", "text/plain"⟩ initUploadState).2.2
    [.selectFile ⟨"a.txt", "text/plain"⟩] ⟨"a.txt", "text/plain"⟩ hg⟩

/-- Counterexample for C10: a backend content value whose parsed form is
the object with a numeric content field makes getContentText return the
number 5, not a string — the claim that getContentText always returns a
string fails at this input. -/
theorem summarycard_content_not_string :
    isString (getContentText (parsedContentOf (fun _ => none)
      (JSValue.obj [("content", JSValue.num 5)]))) = false := rfl

/-- C10 (amended): for every summary.content that is a string failing to
parse as JSON, SummaryCard wraps the raw content as
the object with fields content, empty title and empty key_topics, and on
that fallback value getContentText returns a string and getKeyTopics
returns a list, so rendering of an unparseable string never throws. -/
theorem summarycard_fallback_total (parse : String → Option JSValue) (s : String)
    (h : parse s = none) :
    parsedContentOf parse (.str s) = fallbackWrap (.str s) ∧
    isString (getContentText (parsedContentOf parse (.str s))) = true ∧
    isArray (getKeyTopics (parsedContentOf parse (.str s))) = true := by
  refine ⟨by simp [parsedContentOf, h], ?_, ?_⟩
  · by_cases hs : s = ""
    · subst hs
      simp [parsedContentOf, h, fallbackWrap, getContentText, getField, jsOr, truthy,
        isString, List.find?]
    · simp [parsedContentOf, h, fallbackWrap, getContentText, getField, jsOr, truthy,
        isString, List.find?, hs]
  · simp [parsedContentOf, h, fallbackWrap, getKeyTopics, getField, jsOr, truthy,
      isArray, List.find?]

/-- Witness for C10 (amended): concrete unparseable content. -/
theorem summarycard_fallback_total_witness :
    ((fun (_ : String) => (none : Option JSValue)) "plain summary" = none) ∧
    parsedContentOf (fun _ => none) (.str "plain summary") =
      fallbackWrap (.str "plain summary") ∧
    isString (getContentText (parsedContentOf (fun _ => none)
      (.str "plain summary"))) = true ∧
    isArray (getKeyTopics (parsedContentOf (fun _ => none)
      (.str "plain summary"))) = true :=
  ⟨rfl, (summarycard_fallback_total (fun _ => none) "plain summary" rfl).1,
    (summarycard_fallback_total (fun _ => none) "plain summary" rfl).2.1,
    (summarycard_fallback_total (fun _ => none) "plain summary" rfl).2.2⟩

theorem rowsFor_saveSummary_self (vid : Nat) (kind : SumKind) (c : String) (t : Nat)
    (st : List SummaryRow) :
    rowsFor vid kind (saveSummary vid kind c t st) = [⟨vid, kind, c, t⟩] := by
  unfold rowsFor saveSummary
  rw [List.filter_cons_of_pos (by simp)]
  rw [List.filter_eq_nil_iff.mpr]
  intro r hr
  have hnot := List.of_mem_filter hr
  simp only [decide_eq_true_eq] at hnot ⊢
  exact hnot

/-- C8: at most one current Summary row per (video_id, kind) at any time —
the empty store satisfies the invariant, saving a generated summary
preserves it, and saving a kind that already exists replaces the row for
that key: afterwards the rows for (video_id, kind) are exactly the single
new row, never an appended second one. -/
theorem summary_replace_on_regenerate (vid : Nat) (kind : SumKind) (c : String) (t : Nat)
    (st : List SummaryRow) (h : AtMostOnePerKind st) :
    AtMostOnePerKind ([] : List SummaryRow) ∧
    rowsFor vid kind (saveSummary vid kind c t st) = [⟨vid, kind, c, t⟩] ∧
    AtMostOnePerKind (saveSummary vid kind c t st) := by
  refine ⟨fun _ _ => by simp [rowsFor], rowsFor_saveSummary_self vid kind c t st, ?_⟩
  intro v k
  by_cases hk : v = vid ∧ k = kind
  · rw [hk.1, hk.2, rowsFor_saveSummary_self]
    exact Nat.le_refl 1
  · have hstep : rowsFor v k (saveSummary vid kind c t st) =
        rowsFor v k (st.filter fun r => ¬ (r.videoId = vid ∧ r.kind = kind)) := by
      unfold rowsFor saveSummary
      rw [List.filter_cons_of_neg]
      simp only [decide_eq_true_eq]
      intro hc
      exact hk ⟨hc.1.symm, hc.2.symm⟩
    rw [hstep]
    calc (rowsFor v k (st.filter fun r => ¬ (r.videoId = vid ∧ r.kind = kind))).length
        ≤ (rowsFor v k st).length := by
          exact List.Sublist.length_le (List.Sublist.filter _ (List.filter_sublist st))
      _ ≤ 1 := h v k

theorem atMostOne_singleton (r : SummaryRow) : AtMostOnePerKind [r] :=
  fun _ _ => Nat.le_trans (List.length_filter_le _ _) (Nat.le_refl 1)

/-- Witness for C8: a store already holding a full summary for video 1;
regenerating the full summary replaces the row. -/
theorem summary_replace_on_regenerate_witness :
    AtMostOnePerKind [⟨1, SumKind.full, "old", 3⟩] ∧
    (AtMostOnePerKind ([] : List SummaryRow) ∧
      rowsFor 1 SumKind.full (saveSummary 1 SumKind.full "new" 9 [⟨1, SumKind.full, "old", 3⟩]) =
        [⟨1, SumKind.full, "new", 9⟩] ∧
      AtMostOnePerKind (saveSummary 1 SumKind.full "new" 9 [⟨1, SumKind.full, "old", 3⟩])) :=
  ⟨atMostOne_singleton _,
   summary_replace_on_regenerate 1 SumKind.full "new" 9 [⟨1, SumKind.full, "old", 3⟩]
    (atMostOne_singleton _)⟩

theorem mem_upsertOne (emb : String → List Int) (s : Segment) (st : List IndexEntry)
    (e : IndexEntry) (h : e ∈ upsertOne emb s st) : e = entryOf emb s ∨ e ∈ st := by
  unfold upsertOne at h
  rcases List.mem_cons.mp h with h1 | h1
  · exact Or.inl h1
  · exact Or.inr (List.mem_of_mem_filter h1)

theorem mem_upsert (emb : String → List Int) (segs : List Segment)
    (st : List IndexEntry) (e : IndexEntry) (h : e ∈ upsert emb segs st) :
    (∃ s ∈ segs, e = entryOf emb s) ∨ e ∈ st := by
  induction segs generalizing st with
  | nil => exact Or.inr h
  | cons s rest ih =>
    rcases ih (upsertOne emb s st) h with h1 | h1
    · obtain ⟨s2, hs2, he⟩ := h1
      exact Or.inl ⟨s2, List.mem_cons_of_mem s hs2, he⟩
    · rcases mem_upsertOne emb s st e h1 with h2 | h2
      · exact Or.inl ⟨s, List.mem_cons_self s rest, h2⟩
      · exact Or.inr h2

theorem mem_invalidate (vid : Nat) (st : List IndexEntry) (e : IndexEntry)
    (h : e ∈ invalidate vid st) : ¬ e.videoId = vid := by
  have := List.of_mem_filter h
  simpa using this

theorem queryIdx_ok_mem (emb : String → List Int) (q : String) (vid k : Nat)
    (st : List IndexEntry) (hits : List IndexEntry)
    (h : queryIdx emb q vid k st = .ok hits) :
    ∀ e ∈ hits, e ∈ st ∧ e.videoId = vid := by
  intro e he
  unfold queryIdx at h
  by_cases hemp : (st.filter fun x => x.videoId = vid).isEmpty
  · simp [hemp] at h
  · simp [hemp] at h
    rw [← h] at he
    have h1 := List.mem_of_mem_take he
    have h2 := (List.perm_insertionSort
      (fun e1 e2 => dot (emb q) e2.vec ≤ dot (emb q) e1.vec)
      (st.filter fun x => x.videoId = vid)).mem_iff.mp h1
    exact ⟨List.mem_of_mem_filter h2, by simpa using List.of_mem_filter h2⟩

/-- C7: after invalidate(video_id) followed by upsert(new_segments), every
entry returned by query for that video is derived from new_segments by the
embedding service, never from any vector indexed before the invalidation;
and between invalidation and re-upsert the query fails with the typed
empty-index error instead of silently serving vectors for the old text. -/
theorem index_consistency (emb : String → List Int) (q : String) (vid k : Nat)
    (st : List IndexEntry) (newsegs : List Segment) (hits : List IndexEntry)
    (hq : queryIdx emb q vid k (upsert emb newsegs (invalidate vid st)) = .ok hits) :
    (∀ e ∈ hits, ∃ s ∈ newsegs, e = entryOf emb s) ∧
    queryIdx emb q vid k (invalidate vid st) = .error .IndexEmpty := by
  constructor
  · intro e he
    obtain ⟨hmem, hvid⟩ := queryIdx_ok_mem emb q vid k _ hits hq e he
    rcases mem_upsert emb newsegs (invalidate vid st) e hmem with h1 | h1
    · exact h1
    · exact absurd hvid (mem_invalidate vid st e h1)
  · unfold queryIdx
    have hnil : ((invalidate vid st).filter fun e => e.videoId = vid) = [] := by
      rw [List.filter_eq_nil_iff]
      intro e he
      simpa using mem_invalidate vid st e he
    simp [hnil]

/-- Witness for C7: editing video 1's transcript from "old" to "new" —
after invalidation and re-upsert, the query serves only the entry embedded
from the new segment. -/
theorem index_consistency_witness :
    queryIdx (fun s => [Int.ofNat s.length]) "q" 1 4
        (upsert (fun s => [Int.ofNat s.length]) [⟨1, 0, 2, "new"⟩]
          (invalidate 1 [⟨1, 0, "old", [9]⟩])) =
      .ok [⟨1, 0, "new", [3]⟩] ∧
    (∀ e ∈ [(⟨1, 0, "new", [3]⟩ : IndexEntry)],
      ∃ s ∈ [(⟨1, 0, 2, "new"⟩ : Segment)], e = entryOf (fun s => [Int.ofNat s.length]) s) ∧
    queryIdx (fun s => [Int.ofNat s.length]) "q" 1 4
        (invalidate 1 [⟨1, 0, "old", [9]⟩]) =
      .error .IndexEmpty :=
  ⟨rfl,
   (index_consistency (fun s => [Int.ofNat s.length]) "q" 1 4
      [⟨1, 0, "old", [9]⟩] [⟨1, 0, 2, "new"⟩] [⟨1, 0, "new", [3]⟩] rfl).1,
   (index_consistency (fun s => [Int.ofNat s.length]) "q" 1 4
      [⟨1, 0, "old", [9]⟩] [⟨1, 0, 2, "new"⟩] [⟨1, 0, "new", [3]⟩] rfl).2⟩

theorem length_le_foldl_append (l : List String) (acc : String) :
    acc.length ≤ (l.foldl (fun a b => a ++ b) acc).length := by
  induction l generalizing acc with
  | nil => exact Nat.le_refl _
  | cons x xs ih =>
    exact Nat.le_trans (by simp) (ih (acc ++ x))

theorem mem_length_le_foldl (s : String) (l : List String) (acc : String) (hs : s ∈ l) :
    s.length ≤ (l.foldl (fun a b => a ++ b) acc).length := by
  induction l generalizing acc with
  | nil => cases hs
  | cons x xs ih =>
    rcases List.mem_cons.mp hs with h | h
    · subst h
      exact Nat.le_trans (by simp) (length_le_foldl_append xs (acc ++ s))
    · exact ih (acc ++ x) h

theorem join_ne_empty (s : String) (l : List String) (hs : s ∈ l) (hne : s ≠ "") :
    String.join l ≠ "" := by
  intro h0
  have hlen := mem_length_le_foldl s l "" hs
  rw [show l.foldl (fun a b => a ++ b) "" = String.join l from rfl, h0] at hlen
  simp at hlen
  exact hne (by cases s with | mk d => cases d with
    | nil => rfl
    | cons c cs => simp [String.length, List.length] at hlen)

theorem sourcesOf_mem (segs : List Segment) (src : Source) (h : src ∈ sourcesOf segs) :
    ∃ s ∈ segs, src.timestamp = s.startTime ∧ src.text = s.text := by
  unfold sourcesOf at h
  obtain ⟨s, hs, rfl⟩ := List.mem_map.mp h
  exact ⟨s, hs, rfl, rfl⟩

/-- C1: if the generative backend fails (absent backend, timeout or error
modelled as none, or an empty response), chat still returns a normal
response rather than a user-visible error: a non-empty answer in
extractive mode with non-empty sources, whenever segments with text are
indexed for the video. -/
theorem chat_degrades_gracefully (b : Option (String → Option String)) (k : Nat)
    (index : List Segment) (vid : Nat) (q : String)
    (hk : retrieve index vid k ≠ [])
    (htext : ∃ s ∈ retrieve index vid k, s.text ≠ "")
    (hfail : b = none ∨ ∃ f, b = some f ∧
      (f (groundedPrompt q (retrieve index vid k)) = none ∨
       f (groundedPrompt q (retrieve index vid k)) = some "")) :
    ∃ r, chat b k index vid q = .ok r ∧
      r.answer ≠ "" ∧ r.mode = ChatMode.extractive ∧ r.sources ≠ [] := by
  have hans : extractiveAnswer (retrieve index vid k) ≠ "" := by
    obtain ⟨s, hs, hne⟩ := htext
    exact join_ne_empty s.text _ (List.mem_map_of_mem _ hs) hne
  have hsrc : sourcesOf (retrieve index vid k) ≠ [] := by
    unfold sourcesOf
    simpa using hk
  refine ⟨⟨extractiveAnswer (retrieve index vid k), sourcesOf (retrieve index vid k),
    .extractive⟩, ?_, hans, rfl, hsrc⟩
  rcases hfail with hb | ⟨f, hb, hf⟩
  · subst hb
    simp [chat, List.isEmpty_iff, hk]
  · subst hb
    rcases hf with hf | hf <;> simp [chat, List.isEmpty_iff, hk, hf]

/-- Witness for C1: one indexed segment for video 1 and a backend whose
complete call always times out; chat answers extractively. -/
theorem chat_degrades_gracefully_witness :
    retrieve [⟨1, 0, 5, "hello world"⟩] 1 4 ≠ [] ∧
    (∃ s ∈ retrieve [⟨1, 0, 5, "hello world"⟩] 1 4, s.text ≠ "") ∧
    (∃ r, chat (some fun _ => none) 4 [⟨1, 0, 5, "hello world"⟩] 1 "what is said" = .ok r ∧
      r.answer ≠ "" ∧ r.mode = ChatMode.extractive ∧ r.sources ≠ []) :=
  ⟨by decide, by decide,
   chat_degrades_gracefully (some fun _ => none) 4 [⟨1, 0, 5, "hello world"⟩] 1
    "what is said" (by decide) (by decide) (Or.inr ⟨_, rfl, Or.inl rfl⟩)⟩

/-- C2: every chat response has the same shape regardless of which path
produced it — the mode is generative or extractive, and the sources are
exactly the timestamp/text pairs of the retrieved segments, so each source
element carries a timestamp and a text. -/
theorem chat_response_shape (b : Option (String → Option String)) (k : Nat)
    (index : List Segment) (vid : Nat) (q : String) (r : ChatResponse)
    (h : chat b k index vid q = .ok r) :
    (r.mode = ChatMode.generative ∨ r.mode = ChatMode.extractive) ∧
    r.sources = sourcesOf (retrieve index vid k) ∧
    (∀ src ∈ r.sources, ∃ s ∈ retrieve index vid k,
      src.timestamp = s.startTime ∧ src.text = s.text) := by
  have hshape : r.sources = sourcesOf (retrieve index vid k) ∧
      (r.mode = ChatMode.generative ∨ r.mode = ChatMode.extractive) := by
    cases hemp : (retrieve index vid k).isEmpty with
    | true =>
      have hch : chat b k index vid q = .error .IndexEmpty := by
        cases b <;> simp [chat, hemp]
      rw [hch] at h
      simp at h
    | false =>
      cases b with
      | none =>
        have hch : chat none k index vid q = Except.ok ⟨extractiveAnswer (retrieve index vid k),
            sourcesOf (retrieve index vid k), ChatMode.extractive⟩ := by
          simp [chat, hemp]
        rw [hch] at h
        simp only [Except.ok.injEq] at h
        rw [← h]
        exact ⟨rfl, Or.inr rfl⟩
      | some f =>
        cases hc : f (groundedPrompt q (retrieve index vid k)) with
        | none =>
          have hch : chat (some f) k index vid q = Except.ok
              ⟨extractiveAnswer (retrieve index vid k),
                sourcesOf (retrieve index vid k), ChatMode.extractive⟩ := by
            simp [chat, hemp, hc]
          rw [hch] at h
          simp only [Except.ok.injEq] at h
          rw [← h]
          exact ⟨rfl, Or.inr rfl⟩
        | some ans =>
          by_cases ha : ans = ""
          · have hch : chat (some f) k index vid q = Except.ok
                ⟨extractiveAnswer (retrieve index vid k),
                  sourcesOf (retrieve index vid k), ChatMode.extractive⟩ := by
              simp [chat, hemp, hc, ha]
            rw [hch] at h
            simp only [Except.ok.injEq] at h
            rw [← h]
            exact ⟨rfl, Or.inr rfl⟩
          · have hch : chat (some f) k index vid q = Except.ok
                ⟨ans, sourcesOf (retrieve index vid k), ChatMode.generative⟩ := by
              simp [chat, hemp, hc, ha]
            rw [hch] at h
            simp only [Except.ok.injEq] at h
            rw [← h]
            exact ⟨rfl, Or.inl rfl⟩
  refine ⟨hshape.2, hshape.1, fun src hsrc => ?_⟩
  rw [hshape.1] at hsrc
  exact sourcesOf_mem _ src hsrc

/-- Witness for C2: a reachable generative response and the shape facts at
it. -/
theorem chat_response_shape_witness :
    chat (some fun _ => some "an answer") 4 [⟨1, 0, 5, "hello"⟩] 1 "q" =
      .ok ⟨"an answer", [⟨0, "hello"⟩], .generative⟩ ∧
    ((ChatMode.generative = ChatMode.generative ∨
        ChatMode.generative = ChatMode.extractive) ∧
      [(⟨0, "hello"⟩ : Source)] = sourcesOf (retrieve [⟨1, 0, 5, "hello"⟩] 1 4) ∧
      (∀ src ∈ [(⟨0, "hello"⟩ : Source)], ∃ s ∈ retrieve [⟨1, 0, 5, "hello"⟩] 1 4,
        src.timestamp = s.startTime ∧ src.text = s.text)) :=
  ⟨rfl, chat_response_shape (some fun _ => some "an answer") 4 [⟨1, 0, 5, "hello"⟩] 1 "q"
    ⟨"an answer", [⟨0, "hello"⟩], .generative⟩ rfl⟩

theorem greedySelect_sum_le (target : Nat) (l : List Scored) (used : Nat)
    (h : used ≤ target) : used + totalDur (greedySelect target l used) ≤ target := by
  induction l generalizing used with
  | nil => simpa [greedySelect, totalDur]
  | cons s rest ih =>
    unfold greedySelect
    by_cases hd : used + durS s ≤ target
    · have := ih (used + durS s) hd
      simp only [hd, if_true, totalDur, List.map_cons, List.sum_cons]
      simp only [totalDur] at this
      omega
    · simpa [hd] using ih used h

theorem mem_greedySelect (target : Nat) (l : List Scored) (used : Nat) (x : Scored)
    (h : x ∈ greedySelect target l used) : x ∈ l := by
  induction l generalizing used with
  | nil => simp [greedySelect] at h
  | cons s rest ih =>
    unfold greedySelect at h
    by_cases hd : used + durS s ≤ target
    · simp only [hd, if_true, List.mem_cons] at h
      rcases h with h | h
      · exact h ▸ List.mem_cons_self s rest
      · exact List.mem_cons_of_mem s (ih _ h)
    · simp only [hd, if_false] at h
      exact List.mem_cons_of_mem s (ih _ h)

theorem sumDur_cons (a b : Nat) (l : List (Nat × Nat)) :
    sumDur ((a, b) :: l) = (b - a) + sumDur l := by
  simp [sumDur]

theorem mergeInto_sum_le (l : List (Nat × Nat)) (a b : Nat) (hab : a ≤ b)
    (hwf : ∀ r ∈ l, r.1 ≤ r.2) :
    sumDur (mergeInto (a, b) l) ≤ (b - a) + sumDur l := by
  induction l generalizing a b with
  | nil => simp [mergeInto, sumDur]
  | cons r rest ih =>
    obtain ⟨c, d⟩ := r
    have hcd : c ≤ d := hwf (c, d) (List.mem_cons_self _ _)
    have hrest : ∀ r ∈ rest, r.1 ≤ r.2 := fun r hr => hwf r (List.mem_cons_of_mem _ hr)
    unfold mergeInto
    by_cases hcb : c ≤ b
    · simp only [hcb, if_true]
      have h1 := ih a (max b d) (Nat.le_trans hab (Nat.le_max_left b d)) hrest
      have h2 : max b d - a ≤ (b - a) + (d - c) := by
        rcases Nat.le_total b d with hbd | hbd
        · rw [Nat.max_eq_right hbd]
          omega
        · rw [Nat.max_eq_left hbd]
          omega
      rw [sumDur_cons]
      omega
    · simp only [hcb, if_false]
      rw [sumDur_cons, sumDur_cons]
      have := ih c d hcd hrest
      omega

theorem mergeRanges_sum_le (l : List (Nat × Nat)) (hwf : ∀ r ∈ l, r.1 ≤ r.2) :
    sumDur (mergeRanges l) ≤ sumDur l := by
  cases l with
  | nil => exact Nat.le_refl _
  | cons r rest =>
    obtain ⟨a, b⟩ := r
    rw [sumDur_cons]
    exact mergeInto_sum_le rest a b (hwf (a, b) (List.mem_cons_self _ _))
      (fun r hr => hwf r (List.mem_cons_of_mem _ hr))

theorem sumDur_map_ranges (l : List Scored) :
    sumDur (l.map fun s => (s.startTime, s.endTime)) = totalDur l := by
  induction l with
  | nil => rfl
  | cons s rest ih =>
    simp [sumDur, totalDur, durS, List.map_cons, List.sum_cons] at ih ⊢
    exact ih

theorem totalDur_chronOrder (l : List Scored) : totalDur (chronOrder l) = totalDur l :=
  List.Perm.sum_eq (List.Perm.map durS (List.perm_insertionSort _ l))

theorem mem_chronOrder (l : List Scored) (x : Scored) (h : x ∈ chronOrder l) : x ∈ l :=
  (List.perm_insertionSort _ l).mem_iff.mp h

theorem mem_selOrder (l : List Scored) (x : Scored) (h : x ∈ selOrder l) : x ∈ l :=
  (List.perm_insertionSort _ l).mem_iff.mp h

theorem le_maxSegLen (segs : List Scored) : 0 ≤ maxSegLen segs :=
  Nat.zero_le _

/-- C5: the plan emitted by the short assembler never exceeds the duration
budget by more than one segment's length: the sum of the selected time
ranges is at most target_duration plus the longest single input segment
(in this model the greedy pass skips any segment that would overflow, so
the sum is in fact at most target_duration). -/
theorem short_plan_duration_bound (segs : List Scored) (target : Nat)
    (hwf : ∀ s ∈ segs, s.startTime ≤ s.endTime) :
    sumDur (assemble segs target) ≤ target + maxSegLen segs := by
  have hwfr : ∀ r ∈ (chronOrder (greedySelect target (selOrder segs) 0)).map
      (fun s => (s.startTime, s.endTime)), r.1 ≤ r.2 := by
    intro r hr
    obtain ⟨s, hs, rfl⟩ := List.mem_map.mp hr
    exact hwf s (mem_selOrder segs s (mem_greedySelect target _ 0 s (mem_chronOrder _ s hs)))
  have h1 : sumDur (assemble segs target) ≤
      sumDur ((chronOrder (greedySelect target (selOrder segs) 0)).map
        fun s => (s.startTime, s.endTime)) := by
    unfold assemble
    exact mergeRanges_sum_le _ hwfr
  have h2 := sumDur_map_ranges (chronOrder (greedySelect target (selOrder segs) 0))
  have h3 := totalDur_chronOrder (greedySelect target (selOrder segs) 0)
  have h4 := greedySelect_sum_le target (selOrder segs) 0 (Nat.zero_le target)
  have h5 : target ≤ target + maxSegLen segs := Nat.le_add_right _ _
  omega

/-- Witness for C5: the well-formed three-segment example; with a
60-second budget the plan lasts 40 seconds ≤ 60 + 40. -/
theorem short_plan_duration_bound_witness :
    (∀ s ∈ [(⟨0, 10, 1⟩ : Scored), ⟨20, 50, 3⟩, ⟨60, 100, 2⟩], s.startTime ≤ s.endTime) ∧
    sumDur (assemble [⟨0, 10, 1⟩, ⟨20, 50, 3⟩, ⟨60, 100, 2⟩] 60) ≤
      60 + maxSegLen [⟨0, 10, 1⟩, ⟨20, 50, 3⟩, ⟨60, 100, 2⟩] :=
  ⟨by decide,
   short_plan_duration_bound [⟨0, 10, 1⟩, ⟨20, 50, 3⟩, ⟨60, 100, 2⟩] 60 (by decide)⟩

/-- C6: highlight selection is deterministic — two runs of the assembler
on identical scored segments and the same target duration produce
identical plans (the assembler is a pure function of its inputs), and the
order in which the greedy pass considers segments is sorted by descending
score with ties broken by earlier start time, without inventing or losing
segments. -/
theorem short_assembly_deterministic (segs : List Scored) (target : Nat) :
    assemble segs target = assemble segs target ∧
    List.Sorted selRel (selOrder segs) ∧
    (selOrder segs).Perm segs :=
  ⟨rfl, List.sorted_insertionSort selRel segs, List.perm_insertionSort selRel segs⟩

end VideoSummarizer
